import Mathlib

/-!
Verification of the TextMaterial blind-draw core
(`mapping/blind_draw_simulator.py` and `mapping/blind_draw_gui.py`).

The Python data values flowing through the program (parsed JSON corpus
records, weight maps, feedback-log lines) are modelled by the inductive
type `JValue`; Python numbers are modelled by `Rat` (exact rationals in
place of IEEE floats, so IEEE specials such as inf/nan are outside the
model).  Python dicts are modelled by insertion-ordered association
lists, matching CPython's ordered-dict semantics.  Fallible Python code
is modelled with `Except PyErr`; the one injected source of
non-determinism, `random.uniform(0, total)` inside
`weighted_random_choice`, is modelled by an explicit draw-value
parameter `r : Rat`.
-/

set_option autoImplicit false

universe u

/-- Python exception classes that the modelled code can raise. -/
inductive PyErr where
  | fileNotFoundError
  | jsonDecodeError
  | valueError
  | typeError
  | attributeError
  | indexError
  deriving DecidableEq, Repr

/-- A JSON-like Python value: the result of `json.load` / `json.loads`
(None, bool, int/float, str, list, dict). Numbers are modelled by `Rat`. -/
inductive JValue where
  | null
  | bool (b : Bool)
  | num (q : Rat)
  | str (s : String)
  | arr (xs : List JValue)
  | obj (kvs : List (String × JValue))

/-- Python truthiness (`bool(v)`) of a `JValue`. -/
def truthy : JValue → Bool
  | JValue.null => false
  | JValue.bool b => b
  | JValue.num q => decide (q ≠ 0)
  | JValue.str s => decide (s ≠ "")
  | JValue.arr xs => !xs.isEmpty
  | JValue.obj kvs => !kvs.isEmpty

/-- Is this value a Python list? (`isinstance(v, list)`). -/
def JValue.isArr : JValue → Bool
  | JValue.arr _ => true
  | _ => false

/-- Lookup in an insertion-ordered association list (Python `d[k]` / `d.get(k)`). -/
def alistLookup {α : Type u} : List (String × α) → String → Option α
  | [], _ => none
  | (k, v) :: rest, key => if k = key then some v else alistLookup rest key

/-- Python `d.setdefault(k, v)`: keep `d` unchanged if `k` is present,
otherwise append `(k, v)` at the end (CPython dicts keep insertion order). -/
def alistSetdefault {α : Type u} : List (String × α) → String → α → List (String × α)
  | [], key, v => [(key, v)]
  | (k, w) :: rest, key, v =>
    if k = key then (k, w) :: rest else (k, w) :: alistSetdefault rest key v

/-- Python `d[k] = v`: replace in place if `k` is present (keeping its
position), otherwise append at the end. -/
def alistInsert {α : Type u} : List (String × α) → String → α → List (String × α)
  | [], key, v => [(key, v)]
  | (k, w) :: rest, key, v =>
    if k = key then (k, v) :: rest else (k, w) :: alistInsert rest key v

/-- Apply `f` to the value stored at `key` (no-op when absent).  This models
the in-place mutation `d[key].something` on a dict value; in the modelled
code the key is always present when this is reached (a missing key would be
a Python `KeyError`, which the source never triggers on its own state). -/
def alistUpdate {α : Type u} (f : α → α) : List (String × α) → String → List (String × α)
  | [], _ => []
  | (k, w) :: rest, key =>
    if k = key then (k, f w) :: rest else (k, w) :: alistUpdate f rest key

/-- Model of Python `str.strip()`: drop leading and trailing whitespace
(defined over the character list so that it reduces definitionally). -/
def pyStrip (s : String) : String :=
  String.mk (((s.toList.dropWhile Char.isWhitespace).reverse.dropWhile Char.isWhitespace).reverse)

/-- Model of Python `str.startswith(pre)` (defined over character lists
so that it reduces definitionally). -/
def strStartsWith (s pre : String) : Bool :=
  pre.toList.isPrefixOf s.toList

/-- Truncation of a rational toward zero, Python `int(float)` semantics. -/
def ratTrunc (q : Rat) : Int :=
  if q < 0 then -(Int.floor (-q)) else Int.floor q

/-- Value of a list of decimal digit characters. -/
def digitsToNat (ds : List Char) : Nat :=
  ds.foldl (fun a c => a * 10 + (c.toNat - 48)) 0

/-- Power of ten with an integer exponent, as a rational. -/
def ratPow10 (e : Int) : Rat :=
  if 0 ≤ e then ((10 : Rat) ^ e.toNat) else 1 / ((10 : Rat) ^ (-e).toNat)

/-- Model of CPython `float(s)` on a string: optional surrounding
whitespace, optional sign, then `digits [. digits] | . digits`, then an
optional exponent part.  The IEEE special spellings (inf/nan) and digit
group underscores are outside this rational-valued model. -/
def pyFloatOfString (s : String) : Option Rat :=
  let cs := (pyStrip s).toList
  let (sign, cs) : Int × List Char :=
    match cs with
    | '+' :: rest => (1, rest)
    | '-' :: rest => (-1, rest)
    | _ => (1, cs)
  let intDigits := cs.takeWhile Char.isDigit
  let afterInt := cs.dropWhile Char.isDigit
  let body : Option (Nat × Nat × List Char) :=
    match afterInt with
    | '.' :: afterDot =>
      let fracDigits := afterDot.takeWhile Char.isDigit
      if intDigits.isEmpty ∧ fracDigits.isEmpty then none
      else some (digitsToNat intDigits * 10 ^ fracDigits.length + digitsToNat fracDigits,
                 fracDigits.length, afterDot.dropWhile Char.isDigit)
    | _ =>
      if intDigits.isEmpty then none
      else some (digitsToNat intDigits, 0, afterInt)
  match body with
  | none => none
  | some (mant, fracLen, rest) =>
    match rest with
    | [] => some ((sign * (mant : Int) : Int) * ratPow10 (-(fracLen : Int)) : Rat)
    | e :: rest2 =>
      if e = 'e' ∨ e = 'E' then
        let (esign, rest3) : Int × List Char :=
          match rest2 with
          | '+' :: r => (1, r)
          | '-' :: r => (-1, r)
          | _ => (1, rest2)
        let eDigits := rest3.takeWhile Char.isDigit
        if eDigits.isEmpty ∨ ¬(rest3.dropWhile Char.isDigit).isEmpty then none
        else some ((sign * (mant : Int) : Int) *
                   ratPow10 (esign * (digitsToNat eDigits : Int) - (fracLen : Int)))
      else none

/-- Model of CPython `int(s)` on a string: optional surrounding whitespace,
optional sign, then decimal digits only (underscores not modelled). -/
def pyIntOfString (s : String) : Option Int :=
  let cs := (pyStrip s).toList
  let (sign, cs) : Int × List Char :=
    match cs with
    | '+' :: rest => (1, rest)
    | '-' :: rest => (-1, rest)
    | _ => (1, cs)
  if cs.isEmpty ∨ ¬cs.all Char.isDigit then none
  else some (sign * (digitsToNat cs : Int))

/-- Python `float(v)`: `none` models the raised `TypeError`/`ValueError`. -/
def pyFloat : JValue → Option Rat
  | JValue.num q => some q
  | JValue.bool b => some (if b then 1 else 0)
  | JValue.str s => pyFloatOfString s
  | _ => none

/-- Python `int(v)`: `none` models the raised `TypeError`/`ValueError`. -/
def pyInt : JValue → Option Int
  | JValue.num q => some (ratTrunc q)
  | JValue.bool b => some (if b then 1 else 0)
  | JValue.str s => pyIntOfString s
  | _ => none

/-- JSON whitespace (the four characters the JSON grammar allows). -/
def jsonWs (c : Char) : Bool :=
  c == ' ' || c == '\t' || c == '\n' || c == '\r'

/-- Value of a hexadecimal digit character. -/
def hexVal (c : Char) : Option Nat :=
  if '0' ≤ c ∧ c ≤ '9' then some (c.toNat - 48)
  else if 'a' ≤ c ∧ c ≤ 'f' then some (c.toNat - 87)
  else if 'A' ≤ c ∧ c ≤ 'F' then some (c.toNat - 55)
  else none

/-- Parse the body of a JSON string (after the opening quote), returning the
decoded characters and the input remaining after the closing quote.
Each `\uXXXX` escape is decoded to the code point `XXXX` (surrogate-pair
combination is not modelled). -/
def pJsonString : List Char → Option (List Char × List Char)
  | [] => none
  | '"' :: rest => some ([], rest)
  | '\\' :: 'u' :: h1 :: h2 :: h3 :: h4 :: rest =>
    match hexVal h1, hexVal h2, hexVal h3, hexVal h4 with
    | some a, some b, some c, some d =>
      (pJsonString rest).map
        (fun p => (Char.ofNat (((a * 16 + b) * 16 + c) * 16 + d) :: p.1, p.2))
    | _, _, _, _ => none
  | '\\' :: e :: rest =>
    let dec : Option Char :=
      if e = '"' then some '"'
      else if e = '\\' then some '\\'
      else if e = '/' then some '/'
      else if e = 'b' then some '\x08'
      else if e = 'f' then some '\x0c'
      else if e = 'n' then some '\n'
      else if e = 'r' then some '\r'
      else if e = 't' then some '\t'
      else none
    match dec with
    | some c => (pJsonString rest).map (fun p => (c :: p.1, p.2))
    | none => none
  | c :: rest =>
    if c.toNat < 32 then none
    else (pJsonString rest).map (fun p => (c :: p.1, p.2))

/-- Parse a JSON number at the head of the input (JSON grammar: no leading
zeros, an optional fraction with at least one digit, an optional exponent). -/
def pJsonNumber (cs : List Char) : Option (Rat × List Char) :=
  let sc : Int × List Char :=
    match cs with
    | '-' :: r => (-1, r)
    | _ => (1, cs)
  let sign := sc.1
  let cs1 := sc.2
  match cs1 with
  | [] => none
  | c :: _ =>
    if ¬ c.isDigit then none
    else
      let intDigits := cs1.takeWhile Char.isDigit
      if c = '0' ∧ intDigits.length ≠ 1 then none
      else
        let afterInt := cs1.drop intDigits.length
        let fracPart : Option (List Char × List Char) :=
          match afterInt with
          | '.' :: r =>
            let fd := r.takeWhile Char.isDigit
            if fd.isEmpty then none else some (fd, r.dropWhile Char.isDigit)
          | _ => some ([], afterInt)
        match fracPart with
        | none => none
        | some (fracDigits, afterFrac) =>
          let expPart : Option (Int × List Char) :=
            match afterFrac with
            | e :: r =>
              if e = 'e' ∨ e = 'E' then
                let er : Int × List Char :=
                  match r with
                  | '+' :: rr => (1, rr)
                  | '-' :: rr => (-1, rr)
                  | _ => (1, r)
                let ed := er.2.takeWhile Char.isDigit
                if ed.isEmpty then none
                else some (er.1 * (digitsToNat ed : Int), er.2.dropWhile Char.isDigit)
              else some (0, afterFrac)
            | [] => some (0, afterFrac)
          match expPart with
          | none => none
          | some (ex, rest) =>
            some (((sign * ((digitsToNat intDigits * 10 ^ fracDigits.length +
                     digitsToNat fracDigits : Nat) : Int) : Int) : Rat) *
                    ratPow10 (ex - (fracDigits.length : Int)), rest)

mutual

/-- Parse one JSON value at the head of the input (fuel-indexed). -/
def pJsonValue : Nat → List Char → Option (JValue × List Char)
  | 0, _ => none
  | fuel + 1, cs0 =>
    let cs := cs0.dropWhile jsonWs
    match cs with
    | 'n' :: 'u' :: 'l' :: 'l' :: rest => some (JValue.null, rest)
    | 't' :: 'r' :: 'u' :: 'e' :: rest => some (JValue.bool true, rest)
    | 'f' :: 'a' :: 'l' :: 's' :: 'e' :: rest => some (JValue.bool false, rest)
    | '"' :: rest =>
      match pJsonString rest with
      | some (chars, rest2) => some (JValue.str (String.mk chars), rest2)
      | none => none
    | '[' :: rest =>
      let rest2 := rest.dropWhile jsonWs
      match rest2 with
      | ']' :: rest3 => some (JValue.arr [], rest3)
      | _ =>
        match pJsonElems fuel rest2 with
        | some (xs, rest3) => some (JValue.arr xs, rest3)
        | none => none
    | '\x7b' :: rest =>
      let rest2 := rest.dropWhile jsonWs
      match rest2 with
      | '\x7d' :: rest3 => some (JValue.obj [], rest3)
      | _ =>
        match pJsonMembers fuel rest2 with
        | some (pairs, rest3) =>
          some (JValue.obj (pairs.foldl (fun d p => alistInsert d p.1 p.2) []), rest3)
        | none => none
    | c :: _ =>
      if c = '-' ∨ c.isDigit then
        match pJsonNumber cs with
        | some (q, rest) => some (JValue.num q, rest)
        | none => none
      else none
    | [] => none

/-- Parse the elements of a non-empty JSON array up to and including the
closing bracket (fuel-indexed). -/
def pJsonElems : Nat → List Char → Option (List JValue × List Char)
  | 0, _ => none
  | fuel + 1, cs =>
    match pJsonValue fuel cs with
    | none => none
    | some (v, rest) =>
      let rest2 := rest.dropWhile jsonWs
      match rest2 with
      | ']' :: rest3 => some ([v], rest3)
      | ',' :: rest3 =>
        match pJsonElems fuel rest3 with
        | some (xs, rest4) => some (v :: xs, rest4)
        | none => none
      | _ => none

/-- Parse the members of a non-empty JSON object up to and including the
closing brace, in source order (fuel-indexed). -/
def pJsonMembers : Nat → List Char → Option (List (String × JValue) × List Char)
  | 0, _ => none
  | fuel + 1, cs0 =>
    let cs := cs0.dropWhile jsonWs
    match cs with
    | '"' :: rest =>
      match pJsonString rest with
      | none => none
      | some (kchars, rest2) =>
        let rest3 := rest2.dropWhile jsonWs
        match rest3 with
        | ':' :: rest4 =>
          match pJsonValue fuel rest4 with
          | none => none
          | some (v, rest5) =>
            let rest6 := rest5.dropWhile jsonWs
            match rest6 with
            | '\x7d' :: rest7 => some ([(String.mk kchars, v)], rest7)
            | ',' :: rest7 =>
              match pJsonMembers fuel rest7 with
              | none => none
              | some (pairs, rest8) => some ((String.mk kchars, v) :: pairs, rest8)
            | _ => none
        | _ => none
    | _ => none

end

/-- Model of Python `json.loads`: parse one JSON document and require that
only whitespace remains (duplicate object keys follow CPython semantics:
the last value wins, at the first occurrence's position). `none` models a
raised `json.JSONDecodeError`.  CPython's non-standard `NaN`/`Infinity`
literals have no rational value and are outside this model. -/
def jsonParse (s : String) : Option JValue :=
  let cs := s.toList
  match pJsonValue (2 * cs.length + 2) cs with
  | some (v, rest) => if (rest.dropWhile jsonWs).isEmpty then some v else none
  | none => none

/-!
Models of the three compiled regular expressions of
`load_system_prompts`.  Input lines come from Python file iteration
followed by `.strip()`, so they contain no newline; `\d`, `\s` and
`str.strip` are modelled at ASCII granularity (`Char.isDigit`,
`Char.isWhitespace`, `pyStrip`), which covers the document's
content.
-/

/-- Model of `re.match` for the pattern "digits, a dot, optional
whitespace, 【, a lazily captured non-empty name, 】" (the big-scene
header pattern).  Returns the captured group 1. -/
def bigSceneMatch (line : String) : Option String :=
  let cs := line.toList
  let ds := cs.takeWhile Char.isDigit
  if ds.isEmpty then none
  else
    match cs.drop ds.length with
    | '.' :: rest =>
      match rest.dropWhile Char.isWhitespace with
      | '【' :: rest3 =>
        match rest3 with
        | [] => none
        | c :: rest4 =>
          let mid := rest4.takeWhile (fun x => !(x == '】'))
          if (rest4.drop mid.length).head? = some '】' then
            some (String.mk (c :: mid))
          else none
      | _ => none
    | _ => none

/-- Does position `i` of `cs` start a valid greedy split for the subscene
pattern: a non-empty whitespace-free prefix before `i`, a hyphen at `i`,
then a non-empty fullwidth-colon-free run followed by a fullwidth colon? -/
def subDashOk (cs : List Char) (i : Nat) : Bool :=
  decide (1 ≤ i) &&
  (cs.take i).all (fun c => !c.isWhitespace) &&
  ((cs.drop i).head? == some '-') &&
  (let after := cs.drop (i + 1)
   let b := after.takeWhile (fun c => !(c == '：'))
   !b.isEmpty && ((after.drop b.length).head? == some '：'))

/-- Model of `re.match` for the subscene-header pattern "one or more
non-whitespace characters, a hyphen, one or more non-colon characters, a
fullwidth colon", with the backtracking-greedy choice of the hyphen
(the rightmost feasible one).  Returns the captured group 1. -/
def subsceneMatch (line : String) : Option String :=
  let cs := line.toList
  match ((List.range cs.length).filter (fun i => subDashOk cs i)).getLast? with
  | none => none
  | some i =>
    let b := (cs.drop (i + 1)).takeWhile (fun c => !(c == '：'))
    some (String.mk (cs.take (i + 1) ++ b))

/-- Least offset `k` into the list such that the character at `k` is a
closing parenthesis, the one at `k + 1` is a colon (ASCII or fullwidth),
and at least one character follows: the landing point of the lazy
annotation part of the option pattern. -/
def findCloseColon : List Char → Option Nat
  | c1 :: c2 :: c3 :: rest =>
    if (c1 = '）' ∨ c1 = ')') ∧ (c2 = ':' ∨ c2 = '：') then some 0
    else (findCloseColon (c2 :: c3 :: rest)).map (· + 1)
  | _ => none

/-- Model of `re.match` for the option pattern "Option_, a letter A/B/C,
an opening parenthesis, a lazy annotation, a closing parenthesis, a
colon, optional whitespace, a non-empty phrase".  Returns captured
groups 1 (the letter) and 2 (the raw phrase, before the caller's
`.strip()`). -/
def optionMatch (line : String) : Option (String × String) :=
  match line.toList with
  | 'O' :: 'p' :: 't' :: 'i' :: 'o' :: 'n' :: '_' :: l :: ob :: rest =>
    if (l = 'A' ∨ l = 'B' ∨ l = 'C') ∧ (ob = '（' ∨ ob = '(') then
      match findCloseColon rest with
      | some k =>
        let tail := rest.drop (k + 2)
        if tail.isEmpty then none
        else
          let g2 := tail.dropWhile Char.isWhitespace
          let g2f := if g2.isEmpty then tail.drop (tail.length - 1) else g2
          some (String.mk [l], String.mk g2f)
      | none => none
    else none
  | _ => none

/-- A corpus record: a Python dict parsed from JSON (insertion-ordered). -/
abbrev Record := List (String × JValue)

/-- Option letter (as the Python one-character string) to phrase. -/
abbrev OptionMap := List (String × String)

/-- Subscene identifier to its option map. -/
abbrev SubsceneMap := List (String × OptionMap)

/-- Scene name to its subscene map: the taxonomy returned by
`load_system_prompts`. -/
abbrev Scenes := List (String × SubsceneMap)

/-- The two mutable locals of the `load_system_prompts` scan, plus the
taxonomy accumulated so far. -/
structure PromptState where
  scenes : Scenes
  currentScene : Option String
  currentSubscene : Option String

/-- The state of the corpus file on disk, as seen by `load_tanjing_items`. -/
inductive JsonFile where
  | missing
  | withText (text : String)

namespace Simulator

/-- One iteration of the line loop of `load_system_prompts`
(`blind_draw_simulator.py`, lines 65-91): strip, skip blanks, then the
big-scene / subscene / option branches with their `continue`s. -/
def promptStep (st : PromptState) (raw : String) : PromptState :=
  let line := pyStrip raw
  if line = "" then st
  else
    match bigSceneMatch line with
    | some name =>
      { scenes := alistSetdefault st.scenes name []
        currentScene := some name
        currentSubscene := none }
    | none =>
      match subsceneMatch line, st.currentScene with
      | some cand, some cs =>
        if strStartsWith cand (cs ++ "-") then
          { st with
            scenes := alistUpdate (fun subs => alistSetdefault subs cand []) st.scenes cs
            currentSubscene := some cand }
        else st
      | _, _ =>
        match optionMatch line, st.currentScene, st.currentSubscene with
        | some (letter, phraseRaw), some cs, some csub =>
          { st with
            scenes := alistUpdate
              (fun subs => alistUpdate (fun om => alistInsert om letter (pyStrip phraseRaw)) subs csub)
              st.scenes cs }
        | _, _, _ => st

/-- `load_system_prompts` (`blind_draw_simulator.py`, lines 36-93) on the
stripped-line stream of the document. -/
def load_system_prompts (lines : List String) : Scenes :=
  (lines.foldl promptStep { scenes := [], currentScene := none, currentSubscene := none }).scenes

/-- `load_tanjing_items` (`blind_draw_simulator.py`, lines 96-106):
missing file, JSON parse, top-level-list check. -/
def load_tanjing_items : JsonFile → Except PyErr (List JValue)
  | JsonFile.missing => Except.error PyErr.fileNotFoundError
  | JsonFile.withText t =>
    match jsonParse t with
    | none => Except.error PyErr.jsonDecodeError
    | some (JValue.arr xs) => Except.ok xs
    | some _ => Except.error PyErr.valueError

/-- The accumulation loop of `weighted_random_choice`: return the first
item whose running cumulative weight strictly exceeds the draw `r`. -/
def rouletteLoop {α : Type u} (r : Rat) : Rat → List (α × Rat) → Option α
  | _, [] => none
  | cum, (a, w) :: rest => if cum + w > r then some a else rouletteLoop r (cum + w) rest

/-- `weighted_random_choice` (`blind_draw_simulator.py`, lines 171-188)
with the value of `random.uniform(0, total)` injected as `r`: degenerate
total check, accumulation loop, last-item fallback. -/
def weighted_random_choice {α : Type u} (items : List (α × Rat)) (r : Rat) : Except PyErr α :=
  let total := (items.map Prod.snd).sum
  if total ≤ 0 then Except.error PyErr.valueError
  else
    match rouletteLoop r 0 items with
    | some a => Except.ok a
    | none =>
      match items.getLast? with
      | some p => Except.ok p.1
      | none => Except.error PyErr.indexError

/-- The per-record body of the candidate loop of `blind_draw_once`
(`blind_draw_simulator.py`, lines 201-214): `blind_safe` truthiness,
`match_weights or` and dict check, weight lookup with default 0,
`float(...)` coercion, and the positivity filter. -/
def drawCandidate (reqKey : String) (item : Record) : Option (Record × Rat) :=
  if !truthy ((alistLookup item "blind_safe").getD (JValue.bool false)) then none
  else
    let mwv := (alistLookup item "match_weights").getD JValue.null
    let mw := if truthy mwv then mwv else JValue.obj []
    match mw with
    | JValue.obj kvs =>
      let weight := (alistLookup kvs reqKey).getD (JValue.num 0)
      match pyFloat weight with
      | none => none
      | some wv => if wv ≤ 0 then none else some (item, wv)
    | _ => none

/-- The candidate list built by `blind_draw_once` before sampling. -/
def candidates (items : List Record) (reqKey : String) : List (Record × Rat) :=
  items.filterMap (drawCandidate reqKey)

/-- `blind_draw_once` (`blind_draw_simulator.py`, lines 191-219): filter,
`None` on an empty candidate set, otherwise weighted sampling. -/
def blind_draw_once (items : List Record) (reqKey : String) (r : Rat) :
    Except PyErr (Option Record) :=
  let cands := candidates items reqKey
  if cands.isEmpty then Except.ok none
  else (weighted_random_choice cands r).map some

end Simulator

namespace Gui

/-- One iteration of the line loop of the GUI copy of
`load_system_prompts` (`blind_draw_gui.py`, lines 68-93). -/
def promptStep (st : PromptState) (raw : String) : PromptState :=
  let line := pyStrip raw
  if line = "" then st
  else
    match bigSceneMatch line with
    | some name =>
      { scenes := alistSetdefault st.scenes name []
        currentScene := some name
        currentSubscene := none }
    | none =>
      match subsceneMatch line, st.currentScene with
      | some cand, some cs =>
        if strStartsWith cand (cs ++ "-") then
          { st with
            scenes := alistUpdate (fun subs => alistSetdefault subs cand []) st.scenes cs
            currentSubscene := some cand }
        else st
      | _, _ =>
        match optionMatch line, st.currentScene, st.currentSubscene with
        | some (letter, phraseRaw), some cs, some csub =>
          { st with
            scenes := alistUpdate
              (fun subs => alistUpdate (fun om => alistInsert om letter (pyStrip phraseRaw)) subs csub)
              st.scenes cs }
        | _, _, _ => st

/-- The GUI copy of `load_system_prompts` (`blind_draw_gui.py`, lines 41-95). -/
def load_system_prompts (lines : List String) : Scenes :=
  (lines.foldl promptStep { scenes := [], currentScene := none, currentSubscene := none }).scenes

/-- The GUI copy of `load_tanjing_items` (`blind_draw_gui.py`, lines 98-108). -/
def load_tanjing_items : JsonFile → Except PyErr (List JValue)
  | JsonFile.missing => Except.error PyErr.fileNotFoundError
  | JsonFile.withText t =>
    match jsonParse t with
    | none => Except.error PyErr.jsonDecodeError
    | some (JValue.arr xs) => Except.ok xs
    | some _ => Except.error PyErr.valueError

/-- The accumulation loop of the GUI copy of `weighted_random_choice`. -/
def rouletteLoop {α : Type u} (r : Rat) : Rat → List (α × Rat) → Option α
  | _, [] => none
  | cum, (a, w) :: rest => if cum + w > r then some a else rouletteLoop r (cum + w) rest

/-- The GUI copy of `weighted_random_choice` (`blind_draw_gui.py`,
lines 111-123), with the uniform draw injected as `r`. -/
def weighted_random_choice {α : Type u} (items : List (α × Rat)) (r : Rat) : Except PyErr α :=
  let total := (items.map Prod.snd).sum
  if total ≤ 0 then Except.error PyErr.valueError
  else
    match rouletteLoop r 0 items with
    | some a => Except.ok a
    | none =>
      match items.getLast? with
      | some p => Except.ok p.1
      | none => Except.error PyErr.indexError

/-- The per-record body of the candidate loop of the GUI copy of
`blind_draw_once` (`blind_draw_gui.py`, lines 131-144). -/
def drawCandidate (reqKey : String) (item : Record) : Option (Record × Rat) :=
  if !truthy ((alistLookup item "blind_safe").getD (JValue.bool false)) then none
  else
    let mwv := (alistLookup item "match_weights").getD JValue.null
    let mw := if truthy mwv then mwv else JValue.obj []
    match mw with
    | JValue.obj kvs =>
      let weight := (alistLookup kvs reqKey).getD (JValue.num 0)
      match pyFloat weight with
      | none => none
      | some wv => if wv ≤ 0 then none else some (item, wv)
    | _ => none

/-- The candidate list built by the GUI copy of `blind_draw_once`. -/
def candidates (items : List Record) (reqKey : String) : List (Record × Rat) :=
  items.filterMap (drawCandidate reqKey)

/-- The GUI copy of `blind_draw_once` (`blind_draw_gui.py`, lines 126-149). -/
def blind_draw_once (items : List Record) (reqKey : String) (r : Rat) :
    Except PyErr (Option Record) :=
  let cands := candidates items reqKey
  if cands.isEmpty then Except.ok none
  else (weighted_random_choice cands r).map some

/-- One iteration of the line loop of `get_next_feedback_id`
(`blind_draw_gui.py`, lines 158-167) on the accumulator
`(next_id, line_count)`.  `json.JSONDecodeError`, `ValueError`,
`TypeError` and `KeyError` are caught by the source's `except` clause;
an `AttributeError` from `data.get` on a non-dict JSON value is not
caught and aborts the scan. -/
def stepNextId (acc : Int × Nat) (line : String) : Except PyErr (Int × Nat) :=
  let lc := if pyStrip line ≠ "" then acc.2 + 1 else acc.2
  match jsonParse line with
  | none => Except.ok (acc.1, lc)
  | some (JValue.obj kvs) =>
    match alistLookup kvs "feedback_id" with
    | none => Except.ok (acc.1, lc)
    | some JValue.null => Except.ok (acc.1, lc)
    | some fv =>
      match pyInt fv with
      | none => Except.ok (acc.1, lc)
      | some n => Except.ok (max acc.1 (n + 1), lc)
  | some _ => Except.error PyErr.attributeError

/-- `get_next_feedback_id` (`blind_draw_gui.py`, lines 152-168) on the
log's line stream (a missing log file is the empty stream). -/
def get_next_feedback_id (lines : List String) : Except PyErr Int :=
  (List.foldlM stepNextId ((1 : Int), (0 : Nat)) lines).map
    (fun p => max p.1 ((p.2 : Int) + 1))

/-- The display-label-to-internal-identifier resolution of
`BlindDrawApp._update_req_key` (`blind_draw_gui.py`, line 433):
`self.subscene_display_to_internal.get(display_name) if display_name
else None`. -/
def resolveInternal (displayName : String) (m : List (String × String)) : Option String :=
  if displayName ≠ "" then alistLookup m displayName else none

/-- The routing-key construction of `BlindDrawApp._update_req_key`
(`blind_draw_gui.py`, lines 430-440): the full key when scene, resolved
subscene and letter are all truthy, the empty string otherwise. -/
def update_req_key (scene displayName : String) (m : List (String × String))
    (letter : String) : String :=
  match resolveInternal displayName m with
  | some internalName =>
    if scene ≠ "" ∧ internalName ≠ "" ∧ letter ≠ "" then
      internalName ++ "_Option_" ++ letter
    else ""
  | none => ""

/-- The guard of `BlindDrawApp.on_draw_clicked` (`blind_draw_gui.py`,
lines 442-448): an empty routing key aborts before any draw (`none`);
otherwise the draw runs. -/
def on_draw (reqKey : String) (items : List Record) (r : Rat) :
    Option (Except PyErr (Option Record)) :=
  if reqKey = "" then none else some (blind_draw_once items reqKey r)

end Gui

namespace Spec

/-- Spec-side weight lookup: a record's weight map is its
`match_weights` field when that field is a mapping, and the lookup is
the value stored there under the routing key. -/
def weightLookup (item : Record) (reqKey : String) : Option JValue :=
  match alistLookup item "match_weights" with
  | some (JValue.obj kvs) => alistLookup kvs reqKey
  | _ => none

/-- Spec-side candidate predicate, at a given coerced weight `w`: the
safety flag is true (Python truthiness), and the weight map contains the
routing key with a value coercible to the non-negative real `w` that is
strictly greater than 0. -/
def isCandidateAt (item : Record) (reqKey : String) (w : Rat) : Prop :=
  truthy ((alistLookup item "blind_safe").getD (JValue.bool false)) = true ∧
  ∃ v, weightLookup item reqKey = some v ∧ pyFloat v = some w ∧ 0 ≤ w ∧ 0 < w

/-- Spec-side: least index whose cumulative weight prefix sum strictly
exceeds the draw value `r` (the index the roulette walk should select). -/
def firstExceedIdx (r : Rat) : List Rat → Option Nat
  | [] => none
  | w :: ws => if r < w then some 0 else (firstExceedIdx (r - w) ws).map (· + 1)

/-- Spec-side: the `feedback_id` parsed from one log line, when the line
is a JSON object whose `feedback_id` member is present, non-null and
convertible by Python `int`. -/
def parsedFid (line : String) : Option Int :=
  match jsonParse line with
  | some (JValue.obj kvs) =>
    match alistLookup kvs "feedback_id" with
    | none => none
    | some JValue.null => none
    | some v => pyInt v
  | _ => none

/-- Spec-side: every feedback id parsed from the log, in order. -/
def parsedFids (lines : List String) : List Int :=
  lines.filterMap parsedFid

/-- Spec-side: the log's count of non-blank lines. -/
def lineCount (lines : List String) : Nat :=
  (lines.filter (fun l => !(pyStrip l == ""))).length

/-- Spec-side: the claimed next-id formula
`max(1, max(parsed feedback ids) + 1, line count + 1)`. -/
def nextIdOf (lines : List String) : Int :=
  max ((parsedFids lines).foldl (fun a f => max a (f + 1)) 1)
      ((lineCount lines : Int) + 1)

/-- Every line of the log that parses as JSON parses to a JSON object
(the condition under which `get_next_feedback_id` cannot hit its uncaught
`AttributeError`). -/
def objOnly (lines : List String) : Prop :=
  ∀ l ∈ lines, ∀ v, jsonParse l = some v → ∃ kvs, v = JValue.obj kvs

end Spec

/-- Does a draw result hold a successfully sampled record? -/
def isOkSome (e : Except PyErr (Option Record)) : Bool :=
  match e with
  | Except.ok (some _) => true
  | _ => false

/-- Concrete record used in witnesses: blind-safe, weight 2 on key K. -/
def recA : Record :=
  [("blind_safe", JValue.bool true), ("match_weights", JValue.obj [("K", JValue.num 2)])]

/-- Concrete record used in witnesses: blind-safe, but its weight on key
K is the non-numeric string "abc". -/
def recStrW : Record :=
  [("blind_safe", JValue.bool true), ("match_weights", JValue.obj [("K", JValue.str "abc")])]

/-- The C5 invariant on a taxonomy: every subscene identifier registered
under a scene textually starts with the scene name followed by a hyphen. -/
def scenesInv (scenes : Scenes) : Prop :=
  ∀ S subs, alistLookup scenes S = some subs →
    ∀ k ∈ subs.map Prod.fst, strStartsWith k (S ++ "-") = true

/-- The candidate-loop body, rewritten through the spec-side weight
lookup: both the `or \x7b\x7d` coalescing of a falsy `match_weights`, the
non-dict skip, and the default weight 0 of a missing key collapse to
"no usable weight". -/
theorem drawCandidate_eq (reqKey : String) (item : Record) :
    Simulator.drawCandidate reqKey item =
      (if truthy ((alistLookup item "blind_safe").getD (JValue.bool false)) then
        (Spec.weightLookup item reqKey).bind
          (fun v => (pyFloat v).bind
            (fun wv => if wv ≤ 0 then none else some (item, wv)))
      else none) := by
  unfold Simulator.drawCandidate Spec.weightLookup
  cases hsafe : truthy ((alistLookup item "blind_safe").getD (JValue.bool false)) with
  | false => simp
  | true =>
    simp only [Bool.not_true, Bool.false_eq_true, if_false, if_true]
    cases hmw : alistLookup item "match_weights" with
    | none =>
      simp [truthy, alistLookup, pyFloat]
    | some w0 =>
      cases w0 with
      | null => simp [truthy, alistLookup, pyFloat]
      | bool b =>
        cases b <;> simp [truthy, alistLookup, pyFloat]
      | num q =>
        by_cases hq : q = 0 <;> simp [truthy, hq, alistLookup, pyFloat]
      | str s =>
        by_cases hs : s = "" <;> simp [truthy, hs, alistLookup, pyFloat]
      | arr xs =>
        cases xs <;> simp [truthy, List.isEmpty, alistLookup, pyFloat]
      | obj kvs =>
        cases kvs with
        | nil => simp [truthy, List.isEmpty, alistLookup, pyFloat]
        | cons hd tl =>
          simp only [truthy, List.isEmpty, Bool.not_false, if_true]
          cases hk : alistLookup (hd :: tl) reqKey with
          | none => simp [hk, pyFloat]
          | some v => cases hf : pyFloat v <;> simp [hk, hf]

/-- The candidate-loop body succeeds exactly on the records matching the
spec-side candidate predicate, and returns the record itself with its
coerced weight. -/
theorem drawCandidate_some_iff (reqKey : String) (item : Record) (p : Record × Rat) :
    Simulator.drawCandidate reqKey item = some p ↔
      p.1 = item ∧ Spec.isCandidateAt item reqKey p.2 := by
  obtain ⟨p1, p2⟩ := p
  rw [drawCandidate_eq]
  unfold Spec.isCandidateAt
  cases hsafe : truthy ((alistLookup item "blind_safe").getD (JValue.bool false)) with
  | false => simp
  | true =>
    simp only [if_true, eq_self_iff_true, true_and]
    cases hv : Spec.weightLookup item reqKey with
    | none => simp
    | some v =>
      cases hf : pyFloat v with
      | none => simp [hf]
      | some wv =>
        by_cases hw : wv ≤ 0
        · simp only [hf, Option.some_bind, if_pos hw]
          constructor
          · intro h; exact Option.noConfusion h
          · rintro ⟨-, v2, hv2, hf2, -, hpos⟩
            cases Option.some.inj hv2
            rw [hf] at hf2
            cases Option.some.inj hf2
            exact absurd hpos (not_lt.mpr hw)
        · simp only [hf, Option.some_bind, if_neg hw, Option.some.injEq]
          constructor
          · intro h
            injection h with h1 h2
            subst h1
            subst h2
            exact ⟨rfl, v, rfl, hf, le_of_lt (lt_of_not_le hw), lt_of_not_le hw⟩
          · rintro ⟨rfl, v2, hv2, hf2, -, -⟩
            cases hv2
            rw [hf] at hf2
            cases Option.some.inj hf2
            rfl

/-- Membership in the built candidate list, in terms of the spec-side
candidate predicate. -/
theorem mem_candidates_iff (items : List Record) (reqKey : String) (p : Record × Rat) :
    p ∈ Simulator.candidates items reqKey ↔
      p.1 ∈ items ∧ Spec.isCandidateAt p.1 reqKey p.2 := by
  rw [Simulator.candidates, List.mem_filterMap]
  constructor
  · rintro ⟨a, ha, hdc⟩
    rw [drawCandidate_some_iff] at hdc
    obtain ⟨h1, h2⟩ := hdc
    cases h1
    exact ⟨ha, h2⟩
  · rintro ⟨hmem, hcand⟩
    exact ⟨p.1, hmem, (drawCandidate_some_iff reqKey p.1 p).mpr ⟨rfl, hcand⟩⟩

/-- Every weight admitted into the candidate list is strictly positive. -/
theorem candidates_pos (items : List Record) (reqKey : String) :
    ∀ p ∈ Simulator.candidates items reqKey, 0 < p.2 := by
  intro p hp
  obtain ⟨-, -, v, -, -, -, hpos⟩ := (mem_candidates_iff items reqKey p).mp hp
  exact hpos

/-- C1: a record is a candidate of `blind_draw_once` iff its `blind_safe`
flag is true (truthy) and its weight map contains the routing key with a
value coercible to a non-negative real that is strictly greater than 0;
a record with a non-coercible weight value is silently excluded (the
model has no error path in the filter), and an empty candidate set makes
the draw return `None` rather than fail. -/
theorem c1_candidate_filter (items : List Record) (reqKey : String) (r : Rat) :
    (∀ item : Record,
        (∃ w, (item, w) ∈ Simulator.candidates items reqKey) ↔
          (item ∈ items ∧ ∃ w, Spec.isCandidateAt item reqKey w)) ∧
    (Simulator.candidates items reqKey = [] →
      Simulator.blind_draw_once items reqKey r = Except.ok none) := by
  constructor
  · intro item
    constructor
    · rintro ⟨w, hmem⟩
      obtain ⟨h1, h2⟩ := (mem_candidates_iff items reqKey (item, w)).mp hmem
      exact ⟨h1, w, h2⟩
    · rintro ⟨hmem, w, hcand⟩
      exact ⟨w, (mem_candidates_iff items reqKey (item, w)).mpr ⟨hmem, hcand⟩⟩
  · intro hempty
    simp [Simulator.blind_draw_once, hempty]

/-- C1 witness: on a corpus whose only record is blind-safe but carries
the non-numeric weight string "abc" under the routing key, the candidate
set is empty and the draw returns `None` without error. -/
theorem c1_witness : Simulator.blind_draw_once [recStrW] "K" 0 = Except.ok none :=
  (c1_candidate_filter [recStrW] "K" 0).2 rfl

/-- A non-empty list has a last element. -/
theorem exists_getLast? {α : Type u} : ∀ (l : List α), l ≠ [] → ∃ a, l.getLast? = some a := by
  intro l
  induction l with
  | nil => intro h; exact absurd rfl h
  | cons a t ih =>
    intro _
    cases t with
    | nil => exact ⟨a, rfl⟩
    | cons b t2 =>
      obtain ⟨c, hc⟩ := ih (by simp)
      exact ⟨c, by rw [List.getLast?_cons_cons]; exact hc⟩

/-- When all weights are positive and the list is non-empty, the roulette
selection succeeds (either inside the loop or through the last-item
fallback). -/
theorem wrc_ok {α : Type u} (items : List (α × Rat)) (r : Rat)
    (hpos : ∀ p ∈ items, 0 < p.2) (hne : items ≠ []) :
    ∃ a, Simulator.weighted_random_choice items r = Except.ok a := by
  have htot : 0 < (items.map Prod.snd).sum := by
    apply List.sum_pos
    · intro x hx
      obtain ⟨p, hp, rfl⟩ := List.mem_map.mp hx
      exact hpos p hp
    · simpa using hne
  unfold Simulator.weighted_random_choice
  rw [if_neg (not_le.mpr htot)]
  cases hloop : Simulator.rouletteLoop r 0 items with
  | some a => exact ⟨a, rfl⟩
  | none =>
    obtain ⟨p, hp⟩ := exists_getLast? items hne
    rw [hp]
    exact ⟨p.1, rfl⟩

/-- C6: on any record list and routing key, every candidate weight
admitted by the filter of `blind_draw_once` is strictly positive, so when
the candidate set is non-empty the draw always succeeds with a record,
and in particular the defensive `total <= 0` check of
`weighted_random_choice` never raises its `ValueError`. -/
theorem c6_no_degenerate_weight (items : List Record) (reqKey : String) (r : Rat) :
    (∀ p ∈ Simulator.candidates items reqKey, 0 < p.2) ∧
    (Simulator.candidates items reqKey ≠ [] →
      isOkSome (Simulator.blind_draw_once items reqKey r) = true) ∧
    Simulator.blind_draw_once items reqKey r ≠ Except.error PyErr.valueError := by
  refine ⟨candidates_pos items reqKey, ?_, ?_⟩
  · intro hne
    obtain ⟨a, ha⟩ := wrc_ok (Simulator.candidates items reqKey) r (candidates_pos items reqKey) hne
    simp [Simulator.blind_draw_once, ha, isOkSome, List.isEmpty_iff, hne, Except.map]
  · by_cases hne : Simulator.candidates items reqKey = []
    · simp [Simulator.blind_draw_once, hne]
    · obtain ⟨a, ha⟩ := wrc_ok (Simulator.candidates items reqKey) r (candidates_pos items reqKey) hne
      simp [Simulator.blind_draw_once, ha, List.isEmpty_iff, hne, Except.map]

/-- C6 witness: with one blind-safe record of weight 2 on the routing
key, the draw returns that record and no `ValueError` is raised. -/
theorem c6_witness :
    isOkSome (Simulator.blind_draw_once [recA] "K" 1) = true ∧
    Simulator.blind_draw_once [recA] "K" 1 ≠ Except.error PyErr.valueError := by
  have h := c6_no_degenerate_weight [recA] "K" 1
  refine ⟨h.2.1 ?_, h.2.2⟩
  intro hc
  have hval : Simulator.candidates [recA] "K" = [(recA, 2)] := by with_unfolding_all rfl
  rw [hval] at hc
  exact List.noConfusion hc

/-- The accumulation loop, described through the spec-side first-exceed
index: starting from the running sum `cum` it selects the first item
whose cumulative weight pushes the total past `r`. -/
theorem rouletteLoop_eq {α : Type u} :
    ∀ (items : List (α × Rat)) (r cum : Rat),
    Simulator.rouletteLoop r cum items =
      (Spec.firstExceedIdx (r - cum) (items.map Prod.snd)).bind
        (fun i => (items.get? i).map Prod.fst) := by
  intro items
  induction items with
  | nil => intro r cum; rfl
  | cons p rest ih =>
    intro r cum
    obtain ⟨a, w⟩ := p
    simp only [Simulator.rouletteLoop, List.map_cons, Spec.firstExceedIdx]
    by_cases h : cum + w > r
    · rw [if_pos h, if_pos (by linarith : r - cum < w)]
      rfl
    · rw [if_neg h, if_neg (by intro hcon; exact h (by linarith))]
      rw [ih r (cum + w)]
      rw [show r - (cum + w) = r - cum - w from by ring]
      cases Spec.firstExceedIdx (r - cum - w) (rest.map Prod.snd) <;> simp

/-- The first-exceed index is `i` exactly when the draw value lies in the
half-open cumulative-weight interval of item `i` (weights positive, draw
non-negative). -/
theorem firstExceedIdx_some_iff :
    ∀ (ws : List Rat) (r : Rat) (i : Nat), (∀ w ∈ ws, 0 < w) → 0 ≤ r →
      (Spec.firstExceedIdx r ws = some i ↔
        ((ws.take i).sum ≤ r ∧ r < (ws.take (i + 1)).sum)) := by
  intro ws
  induction ws with
  | nil =>
    intro r i _ h0
    simp only [Spec.firstExceedIdx, List.take_nil, List.sum_nil]
    constructor
    · intro h; exact Option.noConfusion h
    · rintro ⟨-, h2⟩; linarith
  | cons w ws ih =>
    intro r i hpos h0
    have hw : 0 < w := hpos w (by simp)
    have hpos2 : ∀ x ∈ ws, 0 < x := fun x hx => hpos x (by simp [hx])
    cases i with
    | zero =>
      simp only [Spec.firstExceedIdx, List.take_zero, List.sum_nil, List.take_succ_cons,
        List.take_zero, List.sum_cons, List.sum_nil, add_zero]
      by_cases h : r < w
      · rw [if_pos h]
        simp [h0, h]
      · rw [if_neg h]
        constructor
        · intro hcon
          obtain ⟨j, -, hj⟩ := Option.map_eq_some'.mp hcon
          exact absurd hj (Nat.succ_ne_zero j)
        · rintro ⟨-, h2⟩; exact absurd h2 h
    | succ j =>
      simp only [Spec.firstExceedIdx, List.take_succ_cons, List.sum_cons]
      by_cases h : r < w
      · rw [if_pos h]
        constructor
        · intro hcon
          exact absurd (Option.some.inj hcon) (by omega)
        · rintro ⟨h1, -⟩
          have hnn : 0 ≤ (ws.take j).sum :=
            List.sum_nonneg (fun x hx => le_of_lt (hpos2 x (List.take_subset _ _ hx)))
          linarith
      · rw [if_neg h]
        have h0w : 0 ≤ r - w := by linarith [le_of_not_lt h]
        constructor
        · intro hcon
          obtain ⟨j2, hj2, hj2e⟩ := Option.map_eq_some'.mp hcon
          have hjj : j2 = j := by omega
          subst hjj
          obtain ⟨h1, h2⟩ := (ih (r - w) j2 hpos2 h0w).mp hj2
          constructor <;> linarith
        · rintro ⟨h1, h2⟩
          have := (ih (r - w) j hpos2 h0w).mpr ⟨by linarith, by linarith⟩
          rw [this]
          rfl

/-- When the draw value lies below the total weight, the first-exceed
index exists and is a valid position. -/
theorem firstExceedIdx_lt_length :
    ∀ (ws : List Rat) (r : Rat), 0 ≤ r → r < ws.sum →
      ∃ i, Spec.firstExceedIdx r ws = some i ∧ i < ws.length := by
  intro ws
  induction ws with
  | nil =>
    intro r h0 hlt
    simp only [List.sum_nil] at hlt
    exact absurd hlt (not_lt.mpr h0)
  | cons w ws ih =>
    intro r h0 hlt
    by_cases h : r < w
    · exact ⟨0, by simp [Spec.firstExceedIdx, h], by simp⟩
    · have h0w : 0 ≤ r - w := by linarith [le_of_not_lt h]
      have hlt2 : r - w < ws.sum := by
        simp only [List.sum_cons] at hlt
        linarith
      obtain ⟨i, hi, hlen⟩ := ih (r - w) h0w hlt2
      refine ⟨i + 1, ?_, by simpa using Nat.succ_lt_succ hlen⟩
      simp only [Spec.firstExceedIdx]
      rw [if_neg h, hi]
      rfl

/-- Taking one more element adds exactly that element's value to the
prefix sum. -/
theorem sum_take_succ_get (l : List Rat) (i : Nat) (hi : i < l.length) :
    (l.take (i + 1)).sum = (l.take i).sum + l.get ⟨i, hi⟩ := by
  rw [List.sum_take_succ l i hi]
  simp [List.get_eq_getElem]

/-- C2: on a candidate list with positive weights and a draw value in
[0, total), `weighted_random_choice` returns the first candidate whose
cumulative weight strictly exceeds the draw; the draw values selecting
position `i` form exactly the half-open interval of length `w i` between
the prefix sums around `i` (hence selection probability `w i / total`
under a uniform draw); the result is always a member of the candidate
list; and when the accumulation never exceeds the draw, the last
candidate is returned. -/
theorem c2_weighted_random_choice :
    (∀ (α : Type u) (items : List (α × Rat)) (r : Rat),
       (∀ p ∈ items, 0 < p.2) → 0 ≤ r → r < (items.map Prod.snd).sum →
       ∃ i, ∃ hi : i < items.length,
         Simulator.weighted_random_choice items r = Except.ok (items.get ⟨i, hi⟩).1 ∧
         Spec.firstExceedIdx r (items.map Prod.snd) = some i ∧
         ((items.map Prod.snd).take i).sum ≤ r ∧
         r < ((items.map Prod.snd).take i).sum + (items.get ⟨i, hi⟩).2 ∧
         (∀ j, ∀ hj : j < items.length,
            (((items.map Prod.snd).take j).sum ≤ r ∧
             r < ((items.map Prod.snd).take j).sum + (items.get ⟨j, hj⟩).2) ↔ j = i) ∧
         (items.get ⟨i, hi⟩).1 ∈ items.map Prod.fst) ∧
    (∀ (α : Type u) (items : List (α × Rat)) (r : Rat),
       0 < (items.map Prod.snd).sum →
       Simulator.rouletteLoop r 0 items = none →
       ∃ p, items.getLast? = some p ∧
         Simulator.weighted_random_choice items r = Except.ok p.1) := by
  constructor
  · intro α items r hpos h0 hT
    have hpos2 : ∀ w ∈ items.map Prod.snd, 0 < w := by
      intro x hx
      obtain ⟨p, hp, rfl⟩ := List.mem_map.mp hx
      exact hpos p hp
    obtain ⟨i, hfe, hilen⟩ := firstExceedIdx_lt_length (items.map Prod.snd) r h0 hT
    have hlen : i < items.length := by simpa using hilen
    have hget2 : (items.map Prod.snd).get ⟨i, hilen⟩ = (items.get ⟨i, hlen⟩).2 := by
      simp [List.get_eq_getElem, List.getElem_map]
    have hiv := (firstExceedIdx_some_iff (items.map Prod.snd) r i hpos2 h0).mp hfe
    have hsum1 : ((items.map Prod.snd).take (i + 1)).sum
        = ((items.map Prod.snd).take i).sum + (items.get ⟨i, hlen⟩).2 := by
      rw [sum_take_succ_get (items.map Prod.snd) i hilen, hget2]
    refine ⟨i, hlen, ?_, hfe, hiv.1, ?_, ?_, ?_⟩
    · have htot : 0 < (items.map Prod.snd).sum := lt_of_le_of_lt h0 hT
      unfold Simulator.weighted_random_choice
      rw [if_neg (not_le.mpr htot)]
      rw [rouletteLoop_eq items r 0, sub_zero, hfe]
      simp only [Option.some_bind, List.get?_eq_get hlen, Option.map_some']
    · rw [← hsum1]; exact hiv.2
    · intro j hj
      constructor
      · rintro ⟨h1, h2⟩
        have hjlen : j < (items.map Prod.snd).length := by simpa using hj
        have hsumj : ((items.map Prod.snd).take (j + 1)).sum
            = ((items.map Prod.snd).take j).sum + (items.get ⟨j, hj⟩).2 := by
          rw [sum_take_succ_get (items.map Prod.snd) j hjlen]
          simp [List.get_eq_getElem, List.getElem_map]
        have hj2 := (firstExceedIdx_some_iff (items.map Prod.snd) r j hpos2 h0).mpr
          ⟨h1, by rw [hsumj]; exact h2⟩
        rw [hfe] at hj2
        exact (Option.some.inj hj2).symm
      · rintro rfl
        exact ⟨hiv.1, by rw [← hsum1]; exact hiv.2⟩
    · exact List.mem_map_of_mem Prod.fst (items.get_mem i hlen)
  · intro α items r htot hloop
    have hne : items ≠ [] := by
      intro h
      subst h
      simp at htot
    obtain ⟨p, hp⟩ := exists_getLast? items hne
    refine ⟨p, hp, ?_⟩
    unfold Simulator.weighted_random_choice
    rw [if_neg (not_le.mpr htot), hloop, hp]

/-- C2 witness: for weights [2, 3] and draw 5/2 the second candidate is
selected (its interval is [2, 5)); for a single weight 1 and an
out-of-range draw 5 the accumulation never exceeds the draw and the last
candidate is returned. -/
theorem c2_witness :
    Simulator.weighted_random_choice [((10 : Nat), (2 : Rat)), (20, 3)] (5 / 2) = Except.ok 20 ∧
    Simulator.weighted_random_choice [((10 : Nat), (1 : Rat))] 5 = Except.ok 10 := by
  constructor
  · obtain ⟨i, hi, heq, hfe, -⟩ :=
      c2_weighted_random_choice.1 Nat [((10 : Nat), (2 : Rat)), (20, 3)] (5 / 2)
        (by with_unfolding_all decide) (by with_unfolding_all decide)
        (by with_unfolding_all decide)
    have h1 : Spec.firstExceedIdx ((5 : Rat) / 2)
        ([((10 : Nat), (2 : Rat)), (20, 3)].map Prod.snd) = some 1 := by
      with_unfolding_all rfl
    rw [hfe] at h1
    cases Option.some.inj h1
    exact heq
  · obtain ⟨p, hp, heq⟩ :=
      c2_weighted_random_choice.2 Nat [((10 : Nat), (1 : Rat))] 5
        (by with_unfolding_all decide) (by with_unfolding_all rfl)
    have hl : ([((10 : Nat), (1 : Rat))].getLast?) = some ((10 : Nat), (1 : Rat)) := rfl
    rw [hl] at hp
    cases Option.some.inj hp
    exact heq

/-- Lookup after `setdefault`: the defaulted key reads back the old value
when present and the default otherwise; other keys are untouched. -/
theorem alistLookup_setdefault {α : Type u} :
    ∀ (l : List (String × α)) (key k : String) (v : α),
    alistLookup (alistSetdefault l key v) k =
      if k = key then some ((alistLookup l key).getD v) else alistLookup l k := by
  intro l
  induction l with
  | nil =>
    intro key k v
    by_cases h : k = key <;> simp [alistSetdefault, alistLookup, h]
    intro h2
    exact absurd h2.symm h
  | cons p rest ih =>
    intro key k v
    obtain ⟨k1, v1⟩ := p
    by_cases h1 : k1 = key
    · subst h1
      simp only [alistSetdefault, if_pos rfl]
      by_cases h2 : k1 = k
      · subst h2
        simp [alistLookup]
      · simp only [alistLookup, if_neg h2]
        rw [if_neg (fun hc => h2 hc.symm)]
    · simp only [alistSetdefault, if_neg h1, alistLookup]
      by_cases h2 : k1 = k
      · subst h2
        rw [if_pos rfl, if_neg h1, if_pos rfl]
      · rw [if_neg h2, if_neg h2, ih key k v]

/-- Lookup after an in-place value update: the updated key reads the
mapped old value; other keys are untouched. -/
theorem alistLookup_update {α : Type u} (f : α → α) :
    ∀ (l : List (String × α)) (key k : String),
    alistLookup (alistUpdate f l key) k =
      if k = key then (alistLookup l key).map f else alistLookup l k := by
  intro l
  induction l with
  | nil =>
    intro key k
    by_cases h : k = key <;> simp [alistUpdate, alistLookup, h]
  | cons p rest ih =>
    intro key k
    obtain ⟨k1, v1⟩ := p
    by_cases h1 : k1 = key
    · subst h1
      simp only [alistUpdate, if_pos rfl]
      by_cases h2 : k1 = k
      · subst h2
        simp [alistLookup]
      · simp only [alistLookup, if_neg h2]
        rw [if_neg (fun hc => h2 hc.symm)]
    · simp only [alistUpdate, if_neg h1, alistLookup]
      by_cases h2 : k1 = k
      · subst h2
        rw [if_pos rfl, if_neg h1, if_pos rfl]
      · rw [if_neg h2, if_neg h2, ih key k]

/-- A key present after `setdefault` was present before or is the
defaulted key. -/
theorem mem_keys_setdefault {α : Type u} :
    ∀ (l : List (String × α)) (key k : String) (v : α),
    k ∈ (alistSetdefault l key v).map Prod.fst → k ∈ l.map Prod.fst ∨ k = key := by
  intro l
  induction l with
  | nil =>
    intro key k v h
    simp [alistSetdefault] at h
    exact Or.inr h
  | cons p rest ih =>
    intro key k v h
    obtain ⟨k1, v1⟩ := p
    by_cases h1 : k1 = key
    · rw [alistSetdefault, if_pos h1] at h
      exact Or.inl h
    · rw [alistSetdefault, if_neg h1] at h
      simp only [List.map_cons, List.mem_cons] at h
      rcases h with h | h
      · exact Or.inl (by simp [h])
      · rcases ih key k v h with h2 | h2
        · exact Or.inl (by simp [h2])
        · exact Or.inr h2

/-- An in-place value update does not change the key list. -/
theorem keys_update {α : Type u} (f : α → α) :
    ∀ (l : List (String × α)) (key : String),
    (alistUpdate f l key).map Prod.fst = l.map Prod.fst := by
  intro l
  induction l with
  | nil => intro key; rfl
  | cons p rest ih =>
    intro key
    obtain ⟨k1, v1⟩ := p
    by_cases h1 : k1 = key
    · rw [alistUpdate, if_pos h1]
      simp
    · rw [alistUpdate, if_neg h1]
      simp [ih key]

/-- Registering a scene header preserves the subscene-prefix invariant. -/
theorem scenesInv_setdefault (scenes : Scenes) (name : String)
    (h : scenesInv scenes) : scenesInv (alistSetdefault scenes name []) := by
  intro S subs hlook k hk
  rw [alistLookup_setdefault] at hlook
  by_cases hS : S = name
  · rw [if_pos hS] at hlook
    cases horig : alistLookup scenes name with
    | none =>
      rw [horig] at hlook
      cases Option.some.inj hlook
      simp at hk
    | some subs0 =>
      rw [horig] at hlook
      simp only [Option.getD_some, Option.some.injEq] at hlook
      subst hlook
      exact h S subs0 (by rw [hS]; exact horig) k hk
  · rw [if_neg hS] at hlook
    exact h S subs hlook k hk

/-- Registering a prefix-checked subscene under the open scene preserves
the subscene-prefix invariant. -/
theorem scenesInv_subscene (scenes : Scenes) (cs cand : String)
    (hguard : strStartsWith cand (cs ++ "-") = true) (h : scenesInv scenes) :
    scenesInv (alistUpdate (fun subs => alistSetdefault subs cand []) scenes cs) := by
  intro S subs hlook k hk
  rw [alistLookup_update] at hlook
  by_cases hS : S = cs
  · rw [if_pos hS] at hlook
    cases horig : alistLookup scenes cs with
    | none =>
      rw [horig] at hlook
      exact Option.noConfusion hlook
    | some subs0 =>
      rw [horig] at hlook
      simp only [Option.map_some', Option.some.injEq] at hlook
      subst hlook
      rcases mem_keys_setdefault subs0 cand k [] hk with h2 | h2
      · exact h S subs0 (by rw [hS]; exact horig) k h2
      · subst h2
        rw [hS]
        exact hguard
  · rw [if_neg hS] at hlook
    exact h S subs hlook k hk

/-- Recording an option phrase (an in-place update of the open
subscene's option map) preserves the subscene-prefix invariant. -/
theorem scenesInv_option (scenes : Scenes) (cs csub letter phrase : String)
    (h : scenesInv scenes) :
    scenesInv (alistUpdate
      (fun subs => alistUpdate (fun om => alistInsert om letter phrase) subs csub)
      scenes cs) := by
  intro S subs hlook k hk
  rw [alistLookup_update] at hlook
  by_cases hS : S = cs
  · rw [if_pos hS] at hlook
    cases horig : alistLookup scenes cs with
    | none =>
      rw [horig] at hlook
      exact Option.noConfusion hlook
    | some subs0 =>
      rw [horig] at hlook
      simp only [Option.map_some', Option.some.injEq] at hlook
      subst hlook
      rw [keys_update] at hk
      exact h S subs0 (by rw [hS]; exact horig) k hk
  · rw [if_neg hS] at hlook
    exact h S subs hlook k hk

/-- One line of the parser loop preserves the subscene-prefix invariant. -/
theorem promptStep_inv (st : PromptState) (raw : String)
    (h : scenesInv st.scenes) : scenesInv (Simulator.promptStep st raw).scenes := by
  simp only [Simulator.promptStep]
  split
  · exact h
  · split
    · exact scenesInv_setdefault st.scenes _ h
    · split
      · split
        · rename_i cand cs hsub hscene hguard
          exact scenesInv_subscene st.scenes cs cand hguard h
        · exact h
      · split
        · exact scenesInv_option st.scenes _ _ _ _ h
        · exact h

/-- C5: in every taxonomy produced by `load_system_prompts`, each
subscene identifier registered under a scene S textually starts with
S followed by a hyphen: subscene lines are registered only while a scene
is open and only after the `startswith` prefix check, and option lines
only touch the option map of an already registered subscene. -/
theorem c5_subscene_prefix (lines : List String) (S : String)
    (subs : SubsceneMap) (k : String)
    (hlook : alistLookup (Simulator.load_system_prompts lines) S = some subs)
    (hk : k ∈ subs.map Prod.fst) :
    strStartsWith k (S ++ "-") = true := by
  have hfold : ∀ (ls : List String) (st : PromptState), scenesInv st.scenes →
      scenesInv ((ls.foldl Simulator.promptStep st).scenes) := by
    intro ls
    induction ls with
    | nil => intro st hst; exact hst
    | cons l ls2 ih => intro st hst; exact ih _ (promptStep_inv st l hst)
  have hinit : scenesInv ([] : Scenes) := by
    intro S2 subs2 hl
    exact Option.noConfusion hl
  exact hfold lines { scenes := [], currentScene := none, currentSubscene := none } hinit
    S subs hlook k hk

/-- C5 witness: on the three-line sample document the registered subscene
of scene 樊笼 starts with "樊笼-". -/
theorem c5_witness : strStartsWith "樊笼-形如槁木" ("樊笼" ++ "-") = true :=
  c5_subscene_prefix ["1. 【樊笼】", "樊笼-形如槁木：", "Option_A（贪）：仰高不及。"]
    "樊笼" [("樊笼-形如槁木", [("A", "仰高不及。")])] "樊笼-形如槁木" rfl (by simp)

/-- C7: parsing the three-line document "1. 【樊笼】", "樊笼-形如槁木：",
"Option_A（贪）：仰高不及。" yields the taxonomy with scene 樊笼, under it
subscene 樊笼-形如槁木, and under that option letter A mapped to the
phrase 仰高不及。. -/
theorem c7_sample_document :
    Simulator.load_system_prompts ["1. 【樊笼】", "樊笼-形如槁木：", "Option_A（贪）：仰高不及。"] =
      [("樊笼", [("樊笼-形如槁木", [("A", "仰高不及。")])])] := rfl

/-- On a line whose JSON parse (if any) yields an object, one loop
iteration of `get_next_feedback_id` updates the running maximum by the
parsed feedback id (when usable) and bumps the non-blank line count. -/
theorem stepNextId_eq (acc : Int × Nat) (l : String)
    (hobj : ∀ v, jsonParse l = some v → ∃ kvs, v = JValue.obj kvs) :
    Gui.stepNextId acc l = Except.ok
      ((match Spec.parsedFid l with
        | none => acc.1
        | some n => max acc.1 (n + 1)),
       if pyStrip l ≠ "" then acc.2 + 1 else acc.2) := by
  unfold Gui.stepNextId Spec.parsedFid
  cases hp : jsonParse l with
  | none => rfl
  | some v =>
    obtain ⟨kvs, rfl⟩ := hobj v hp
    dsimp only
    cases hf : alistLookup kvs "feedback_id" with
    | none => rfl
    | some v2 =>
      cases v2 with
      | null => rfl
      | bool b => cases hi : pyInt (JValue.bool b) <;> rfl
      | num q => cases hi : pyInt (JValue.num q) <;> rfl
      | str s =>
        dsimp only
        cases pyInt (JValue.str s) <;> rfl
      | arr xs => rfl
      | obj kvs2 => rfl

/-- The whole loop of `get_next_feedback_id`, on an object-only log,
computes the fold of `max (· + 1)` over the parsed ids together with the
non-blank line count. -/
theorem nextId_loop :
    ∀ (lines : List String) (nid : Int) (lc : Nat), Spec.objOnly lines →
    List.foldlM Gui.stepNextId (nid, lc) lines =
      Except.ok ((Spec.parsedFids lines).foldl (fun a f => max a (f + 1)) nid,
        lc + Spec.lineCount lines) := by
  intro lines
  induction lines with
  | nil => intro nid lc _; rfl
  | cons l ls ih =>
    intro nid lc h
    have hl : ∀ v, jsonParse l = some v → ∃ kvs, v = JValue.obj kvs :=
      fun v hv => h l (by simp) v hv
    have hrest : Spec.objOnly ls := fun x hx v hv => h x (by simp [hx]) v hv
    rw [List.foldlM_cons, stepNextId_eq (nid, lc) l hl]
    have hcount : Spec.lineCount (l :: ls) =
        (if pyStrip l ≠ "" then 1 else 0) + Spec.lineCount ls := by
      by_cases hb : pyStrip l = "" <;>
        (simp [Spec.lineCount, List.filter_cons, hb]; try omega)
    cases hpf : Spec.parsedFid l with
    | none =>
      have h1 : Spec.parsedFids (l :: ls) = Spec.parsedFids ls := by
        simp [Spec.parsedFids, List.filterMap_cons, hpf]
      rw [show ((Except.ok (nid, if pyStrip l ≠ "" then lc + 1 else lc) :
            Except PyErr (Int × Nat)) >>= fun acc => List.foldlM Gui.stepNextId acc ls)
          = List.foldlM Gui.stepNextId (nid, if pyStrip l ≠ "" then lc + 1 else lc) ls from rfl]
      rw [ih nid (if pyStrip l ≠ "" then lc + 1 else lc) hrest]
      rw [h1, hcount]
      simp only [Except.ok.injEq, Prod.mk.injEq]
      refine ⟨trivial, ?_⟩
      by_cases hb : pyStrip l = "" <;> (simp [hb]; try omega)
    | some n =>
      have h1 : Spec.parsedFids (l :: ls) = n :: Spec.parsedFids ls := by
        simp [Spec.parsedFids, List.filterMap_cons, hpf]
      rw [show ((Except.ok (max nid (n + 1), if pyStrip l ≠ "" then lc + 1 else lc) :
            Except PyErr (Int × Nat)) >>= fun acc => List.foldlM Gui.stepNextId acc ls)
          = List.foldlM Gui.stepNextId (max nid (n + 1),
              if pyStrip l ≠ "" then lc + 1 else lc) ls from rfl]
      rw [ih (max nid (n + 1)) (if pyStrip l ≠ "" then lc + 1 else lc) hrest]
      rw [h1, hcount]
      simp only [List.foldl_cons, Except.ok.injEq, Prod.mk.injEq]
      refine ⟨trivial, ?_⟩
      by_cases hb : pyStrip l = "" <;> (simp [hb]; try omega)

/-- The running-max fold never drops below its starting value. -/
theorem init_le_foldMax :
    ∀ (fs : List Int) (a : Int), a ≤ fs.foldl (fun x y => max x (y + 1)) a := by
  intro fs
  induction fs with
  | nil => intro a; exact le_refl a
  | cons g gs ih =>
    intro a
    exact le_trans (le_max_left a (g + 1)) (ih (max a (g + 1)))

/-- Every listed id is strictly below the running-max fold. -/
theorem mem_lt_foldMax :
    ∀ (fs : List Int) (a f : Int), f ∈ fs → f < fs.foldl (fun x y => max x (y + 1)) a := by
  intro fs
  induction fs with
  | nil => intro a f h; exact absurd h (List.not_mem_nil f)
  | cons g gs ih =>
    intro a f h
    rcases List.mem_cons.mp h with h2 | h2
    · subst h2
      calc f < f + 1 := by omega
        _ ≤ max a (f + 1) := le_max_right a (f + 1)
        _ ≤ gs.foldl (fun x y => max x (y + 1)) (max a (f + 1)) := init_le_foldMax gs _
    · exact ih (max a (g + 1)) f h2

/-- C3 (amended): on every log in which each line that parses as JSON
parses to a JSON object, `get_next_feedback_id` returns exactly
max(1, max(parsed feedback ids) + 1, non-blank line count + 1); in
particular the returned id is strictly greater than every parsed
feedback id and than the line count, and a missing or empty log gives 1.
(The restriction to object-only lines is forced: a line holding a valid
JSON non-object raises an uncaught `AttributeError`.) -/
theorem c3_next_id_formula (lines : List String) (h : Spec.objOnly lines) :
    Gui.get_next_feedback_id lines = Except.ok (Spec.nextIdOf lines) ∧
    (∀ f ∈ Spec.parsedFids lines, f < Spec.nextIdOf lines) ∧
    ((Spec.lineCount lines : Int) < Spec.nextIdOf lines) ∧
    (lines = [] → Spec.nextIdOf lines = 1) := by
  refine ⟨?_, ?_, ?_, ?_⟩
  · unfold Gui.get_next_feedback_id Spec.nextIdOf
    rw [nextId_loop lines 1 0 h]
    simp [Except.map]
  · intro f hf
    exact lt_of_lt_of_le (mem_lt_foldMax (Spec.parsedFids lines) 1 f hf)
      (le_max_left _ _)
  · exact lt_of_lt_of_le (by omega) (le_max_right _ _)
  · rintro rfl
    rfl

/-- C3 witness: a one-line log whose object carries feedback_id 3 gives
next id 4 = max(1, 3 + 1, 1 + 1). -/
theorem c3_witness :
    Gui.get_next_feedback_id ["\x7b\"feedback_id\": 3\x7d"] = Except.ok 4 := by
  have hobj : Spec.objOnly ["\x7b\"feedback_id\": 3\x7d"] := by
    intro l hl v hv
    rw [List.mem_singleton] at hl
    subst hl
    have h0 : jsonParse "\x7b\"feedback_id\": 3\x7d"
        = some (JValue.obj [("feedback_id", JValue.num 3)]) := by
      with_unfolding_all rfl
    rw [h0] at hv
    exact ⟨[("feedback_id", JValue.num 3)], (Option.some.inj hv).symm⟩
  have h := (c3_next_id_formula ["\x7b\"feedback_id\": 3\x7d"] hobj).1
  rw [show Spec.nextIdOf ["\x7b\"feedback_id\": 3\x7d"] = (4 : Int) from by
    with_unfolding_all rfl] at h
  exact h

/-- C3 counterexample: on the log whose single line is the valid JSON
non-object `5`, `get_next_feedback_id` raises an uncaught
`AttributeError` instead of returning the claimed
max(1, 5 + 1, 1 + 1) = 6: the claim fails as stated over all log
contents. -/
theorem c3_counterexample :
    Gui.get_next_feedback_id ["5"] = Except.error PyErr.attributeError ∧
    Gui.get_next_feedback_id ["5"] ≠ Except.ok (Spec.nextIdOf ["5"]) := by
  have h1 : Gui.get_next_feedback_id ["5"] = Except.error PyErr.attributeError := by
    with_unfolding_all rfl
  exact ⟨h1, fun h2 => Except.noConfusion (h1.symm.trans h2)⟩

/-- C4 (code bug): the `except` clause of `get_next_feedback_id` catches
`json.JSONDecodeError`, `ValueError`, `TypeError` and `KeyError`, but
`data.get("feedback_id")` on a line that parses to a JSON non-object
(here the array line `[]`) raises `AttributeError`, which is not caught:
the scan aborts instead of skipping the malformed line. -/
theorem c4_attribute_error :
    Gui.get_next_feedback_id ["\x7b\"feedback_id\": 1\x7d", "[]"]
      = Except.error PyErr.attributeError := by
  with_unfolding_all rfl

/-- C8: the corpus loader fails with `FileNotFoundError` when the file is
missing, fails with `ValueError` when the parsed top-level JSON value is
not an array, and otherwise returns the array's elements exactly as
parsed — unvalidated and unmodified, with no per-element schema check. -/
theorem c8_load_tanjing (t : String) :
    Simulator.load_tanjing_items JsonFile.missing = Except.error PyErr.fileNotFoundError ∧
    (∀ xs, jsonParse t = some (JValue.arr xs) →
      Simulator.load_tanjing_items (JsonFile.withText t) = Except.ok xs) ∧
    (∀ v, jsonParse t = some v → v.isArr = false →
      Simulator.load_tanjing_items (JsonFile.withText t) = Except.error PyErr.valueError) := by
  refine ⟨rfl, ?_, ?_⟩
  · intro xs hxs
    simp [Simulator.load_tanjing_items, hxs]
  · intro v hv hisarr
    cases v <;> simp_all [Simulator.load_tanjing_items, JValue.isArr]

/-- C8 witness: the two-element array text loads as its elements; the
non-array text `3` fails with `ValueError`; a missing file fails with
`FileNotFoundError`. -/
theorem c8_witness :
    Simulator.load_tanjing_items (JsonFile.withText "[1, 2]")
        = Except.ok [JValue.num 1, JValue.num 2] ∧
    Simulator.load_tanjing_items (JsonFile.withText "3")
        = Except.error PyErr.valueError ∧
    Simulator.load_tanjing_items JsonFile.missing
        = Except.error PyErr.fileNotFoundError := by
  refine ⟨?_, ?_, (c8_load_tanjing "").1⟩
  · exact (c8_load_tanjing "[1, 2]").2.1 [JValue.num 1, JValue.num 2]
      (by with_unfolding_all rfl)
  · exact (c8_load_tanjing "3").2.2 (JValue.num 3) (by with_unfolding_all rfl) rfl

/-- C9: when a scene, a resolved (non-empty) subscene identifier and an
option letter are all selected, `_update_req_key` builds exactly
`<subscene>_Option_<letter>`; when any of the three is missing the key is
the empty-string sentinel, and `on_draw_clicked` refuses to draw on it. -/
theorem c9_req_key (scene displayName : String) (m : List (String × String))
    (letter : String) (items : List Record) (r : Rat) :
    (∀ iname, Gui.resolveInternal displayName m = some iname → iname ≠ "" →
      scene ≠ "" → letter ≠ "" →
      Gui.update_req_key scene displayName m letter = iname ++ "_Option_" ++ letter) ∧
    ((Gui.resolveInternal displayName m = none ∨
      Gui.resolveInternal displayName m = some "" ∨ scene = "" ∨ letter = "") →
      Gui.update_req_key scene displayName m letter = "" ∧
      Gui.on_draw (Gui.update_req_key scene displayName m letter) items r = none) := by
  constructor
  · intro iname hres hi hs hl
    unfold Gui.update_req_key
    rw [hres]
    dsimp only
    rw [if_pos ⟨hs, hi, hl⟩]
  · intro hmiss
    have hkey : Gui.update_req_key scene displayName m letter = "" := by
      unfold Gui.update_req_key
      rcases hmiss with hc | hc | hc | hc
      · rw [hc]
      · rw [hc]
        simp
      · cases hres : Gui.resolveInternal displayName m with
        | none => rfl
        | some iname =>
          dsimp only
          rw [if_neg (fun hand => hand.1 hc)]
      · cases hres : Gui.resolveInternal displayName m with
        | none => rfl
        | some iname =>
          dsimp only
          rw [if_neg (fun hand => hand.2.2 hc)]
    rw [hkey]
    exact ⟨rfl, rfl⟩

/-- C9 witness: the full selection builds 樊笼-形如槁木_Option_A; with the
scene missing the key is empty and no draw is attempted. -/
theorem c9_witness :
    Gui.update_req_key "樊笼" "形如槁木" [("形如槁木", "樊笼-形如槁木")] "A"
        = "樊笼-形如槁木_Option_A" ∧
    Gui.update_req_key "" "形如槁木" [("形如槁木", "樊笼-形如槁木")] "A" = "" ∧
    Gui.on_draw (Gui.update_req_key "" "形如槁木" [("形如槁木", "樊笼-形如槁木")] "A") [] 0
        = none := by
  have h1 := (c9_req_key "樊笼" "形如槁木" [("形如槁木", "樊笼-形如槁木")] "A" [] 0).1
    "樊笼-形如槁木" rfl (by decide) (by decide) (by decide)
  have h2 := (c9_req_key "" "形如槁木" [("形如槁木", "樊笼-形如槁木")] "A" [] 0).2
    (Or.inr (Or.inr (Or.inl rfl)))
  exact ⟨h1.trans (by decide), h2.1, h2.2⟩

/-- The two textually identical copies of the roulette accumulation loop
agree (proved by induction, since a recursive function applied to a
variable list does not reduce). -/
theorem roulette_copies_eq {α : Type u} :
    ∀ (items : List (α × Rat)) (r cum : Rat),
    Gui.rouletteLoop r cum items = Simulator.rouletteLoop r cum items := by
  intro items
  induction items with
  | nil => intro r cum; rfl
  | cons p rest ih =>
    intro r cum
    obtain ⟨a, w⟩ := p
    simp only [Gui.rouletteLoop, Simulator.rouletteLoop]
    by_cases h : cum + w > r
    · rw [if_pos h, if_pos h]
    · rw [if_neg h, if_neg h]
      exact ih r (cum + w)

/-- The two copies of `weighted_random_choice` agree. -/
theorem wrc_copies_eq {α : Type u} (items : List (α × Rat)) (r : Rat) :
    Gui.weighted_random_choice items r = Simulator.weighted_random_choice items r := by
  unfold Gui.weighted_random_choice Simulator.weighted_random_choice
  rw [roulette_copies_eq]

/-- C10: the duplicated core functions of the CLI simulator and the GUI
are extensionally equal on all inputs: the two copies of
`load_system_prompts`, `load_tanjing_items`, `weighted_random_choice`
and `blind_draw_once` agree pointwise (and in particular raise under the
same conditions, the errors being part of the returned value). -/
theorem c10_cli_gui_equal :
    (∀ lines : List String, Gui.load_system_prompts lines = Simulator.load_system_prompts lines) ∧
    (∀ f : JsonFile, Gui.load_tanjing_items f = Simulator.load_tanjing_items f) ∧
    (∀ (α : Type u) (items : List (α × Rat)) (r : Rat),
      Gui.weighted_random_choice items r = Simulator.weighted_random_choice items r) ∧
    (∀ (items : List Record) (reqKey : String) (r : Rat),
      Gui.blind_draw_once items reqKey r = Simulator.blind_draw_once items reqKey r) := by
  refine ⟨fun lines => ?_, fun f => ?_, fun α items r => ?_, fun items reqKey r => ?_⟩
  · induction lines <;> rfl
  · cases f <;> rfl
  · exact wrc_copies_eq items r
  · simp only [Gui.blind_draw_once, Simulator.blind_draw_once]
    rw [show Gui.candidates items reqKey = Simulator.candidates items reqKey from rfl]
    rw [wrc_copies_eq]
